import Mathlib

/-!
Verification of the search-console keyword dashboard core
(`dashboard.py`): schema resolution, snapshot extraction, filename
date parsing, historical aggregation and the two-period comparison.

Column names and cell contents are modelled as `List Char`; numeric
cell values as `ℚ` (the code uses pandas float columns); fallible
processing as `Except`.
-/

/-- Column names / strings are lists of characters. -/
abbrev Str := List Char

/-- Literal helper: the character list of a string literal. -/
def cs (s : String) : Str := s.data

/-- Rational multiplication, written so that the kernel can evaluate it
on concrete inputs (the library's `Rat.mul` is irreducible); proved
equal to `a * b` in `qmul_eq`. -/
def qmul (a b : ℚ) : ℚ := mkRat (a.num * b.num) (a.den * b.den)

/-- Kernel-evaluable rational inverse; proved equal to `b⁻¹` in `qinv_eq`. -/
def qinv (b : ℚ) : ℚ := mkRat ((b.den : ℤ) * b.num.sign) b.num.natAbs

/-- Kernel-evaluable rational division; proved equal to `a / b` in `qdiv_eq`. -/
def qdiv (a b : ℚ) : ℚ := qmul a (qinv b)

/-- Kernel-evaluable rational subtraction; proved equal to `a - b` in `qsub_eq`. -/
def qsub (a b : ℚ) : ℚ :=
  mkRat (a.num * (b.den : ℤ) - b.num * (a.den : ℤ)) (a.den * b.den)

/-- Python `str.strip()` whitespace predicate (model). -/
def isWS (c : Char) : Bool := c.isWhitespace

/-- Python `str.strip()`: drop leading and trailing whitespace. -/
def trimWS (s : Str) : Str :=
  ((s.dropWhile isWS).reverse.dropWhile isWS).reverse

/-- `str(col).lower().strip()` from line 62 of `dashboard.py`. -/
def lowerTrim (s : Str) : Str := trimWS (s.map Char.toLower)

/-- Python's `needle in hay` substring test: contiguous-infix membership. -/
def isSubstr (needle hay : Str) : Bool := decide (needle <:+: hay)

/-- The `'position' in col_lower or 'avg. position' in col_lower or
'avg position' in col_lower` test (line 63). -/
def posCode (c : Str) : Bool :=
  isSubstr (cs "position") (lowerTrim c) ||
  isSubstr (cs "avg. position") (lowerTrim c) ||
  isSubstr (cs "avg position") (lowerTrim c)

/-- The `'impressions' in col_lower` test (line 65). -/
def imprCode (c : Str) : Bool := isSubstr (cs "impressions") (lowerTrim c)

/-- The `'clicks' in col_lower` test (line 67). -/
def clicksCode (c : Str) : Bool := isSubstr (cs "clicks") (lowerTrim c)

/-- The `'ctr' in col_lower or 'click-through rate' in col_lower` test (line 69). -/
def ctrCode (c : Str) : Bool :=
  isSubstr (cs "ctr") (lowerTrim c) ||
  isSubstr (cs "click-through rate") (lowerTrim c)

/-- The seven-way keyword-column test (lines 71-74). -/
def kwCode (c : Str) : Bool :=
  isSubstr (cs "query") (lowerTrim c) ||
  isSubstr (cs "queries") (lowerTrim c) ||
  isSubstr (cs "keyword") (lowerTrim c) ||
  isSubstr (cs "keywords") (lowerTrim c) ||
  isSubstr (cs "search query") (lowerTrim c) ||
  isSubstr (cs "top query") (lowerTrim c) ||
  isSubstr (cs "top queries") (lowerTrim c)

/-- The five `*_col` variables of `process_search_console_file`. -/
structure Mapping where
  position : Option Str
  impressions : Option Str
  clicks : Option Str
  ctr : Option Str
  keyword : Option Str
deriving DecidableEq

/-- One iteration of the `for col in df.columns` loop (lines 61-75):
each field whose test the column passes is overwritten with it. -/
def mapStep (m : Mapping) (c : Str) : Mapping :=
  { position := if posCode c then some c else m.position
    impressions := if imprCode c then some c else m.impressions
    clicks := if clicksCode c then some c else m.clicks
    ctr := if ctrCode c then some c else m.ctr
    keyword := if kwCode c then some c else m.keyword }

/-- The column-matching loop of `process_search_console_file`:
all five `*_col` variables start at `None` and are assigned in
column order. -/
def resolveColumns (cols : List Str) : Mapping :=
  cols.foldl mapStep ⟨none, none, none, none, none⟩

/-- Spec-shaped selector: the last column of the list satisfying the
predicate, `none` when no column does. -/
def lastMatch (p : Str → Bool) (l : List Str) : Option Str :=
  l.foldl (fun acc c => if p c then some c else acc) none

/-- A spreadsheet cell: numeric (pandas float/int, modelled as `ℚ`)
or textual. -/
inductive Cell
  | num (q : ℚ)
  | str (s : Str)
deriving DecidableEq

/-- Numeric view of a cell (claims only read numeric cells numerically). -/
def Cell.toQ : Cell → ℚ
  | num q => q
  | str _ => 0

/-- One row of the raw dataframe: an association of column name to cell. -/
structure RawRow where
  cells : List (Str × Cell)
deriving DecidableEq

/-- Cell of row `r` in column `c`. -/
def RawRow.val (r : RawRow) (c : Str) : Cell :=
  ((r.cells.find? (fun p => p.1 == c)).map Prod.snd).getD (Cell.num 0)

/-- The decoded spreadsheet passed to `process_search_console_file`. -/
structure RawDataset where
  cols : List Str
  rows : List RawRow

/-- Failure modes of `process_search_console_file`: the two
missing-mandatory-column errors report the available column names
(lines 78 and 86); the empty top-10 filter result is a warning return
(line 93); any exception is caught by the outer handler (line 143)
and reported as a generic processing error. -/
inductive PErr
  | noPosition (cols : List Str)
  | noKeyword (cols : List Str)
  | emptySnapshot
  | genericErr
deriving DecidableEq

instance {ε α : Type} [DecidableEq ε] [DecidableEq α] : DecidableEq (Except ε α) :=
  fun x y =>
    match x, y with
    | .error e, .error f => decidable_of_iff (e = f) (by simp)
    | .ok a, .ok b => decidable_of_iff (a = b) (by simp)
    | .error _, .ok _ => isFalse (fun h => Except.noConfusion h)
    | .ok _, .error _ => isFalse (fun h => Except.noConfusion h)

/-- One row of the extracted snapshot, under canonical field names. -/
structure CanonRow where
  keyword : Cell
  position : ℚ
  impressions : ℚ
  clicks : Option ℚ
  ctr : Option ℚ
deriving DecidableEq

/-- Round to nearest integer, halves to even (numpy/pandas `round`). -/
def roundHalfEven (q : ℚ) : ℤ :=
  let f := ⌊q⌋
  let r := qsub q (f : ℚ)
  if r < mkRat 1 2 then f
  else if mkRat 1 2 < r then f + 1
  else if f % 2 = 0 then f else f + 1

/-- Pandas `.round(2)` on an exact value. -/
def round2 (q : ℚ) : ℚ := qdiv ((roundHalfEven (qmul q 100) : ℤ) : ℚ) 100

/-- The `df[position_col].between(1, 10)` test of line 90 (inclusive). -/
def inPosRange (posC : Str) (r : RawRow) : Bool :=
  decide (1 ≤ (r.val posC).toQ) && decide ((r.val posC).toQ ≤ 10)

/-- Line 90: keep the rows whose position lies in [1, 10]. -/
def filterPos (posC : Str) (rows : List RawRow) : List RawRow :=
  rows.filter (inPosRange posC)

/-- Canonical row built from one kept raw row: the mapped columns are
read off (lines 102-125), and CTR is derived as
`round(clicks/impressions*100, 2)` when no CTR column was mapped but a
clicks column was (lines 97-99; after the line-83 substitution a clicks
column implies an impressions column). -/
def baseRow (kwC posC imprC : Str) (clickC ctrC : Option Str) (r : RawRow) : CanonRow :=
  { keyword := r.val kwC
    position := (r.val posC).toQ
    impressions := (r.val imprC).toQ
    clicks := clickC.map (fun c => (r.val c).toQ)
    ctr := match ctrC with
      | some c => some ((r.val c).toQ)
      | none => clickC.map (fun c => round2 (qmul (qdiv (r.val c).toQ (r.val imprC).toQ) 100)) }

/-- Pandas `Series.max` over a column (None on an empty column). -/
def colMax : List ℚ → Option ℚ
  | [] => none
  | q :: rest => some (match colMax rest with
      | none => q
      | some m => max q m)

/-- The CTR column of a snapshot (present values). -/
def ctrColumn (rows : List CanonRow) : List ℚ := rows.filterMap CanonRow.ctr

/-- Multiply a row's CTR by 100 (line 131). -/
def bumpCtr (r : CanonRow) : CanonRow :=
  { r with ctr := r.ctr.map (fun q => qmul q 100) }

/-- Lines 128-131 applied to the snapshot rows: when a CTR column is
present and its maximum is ≤ 1, the whole column is multiplied by 100. -/
def rescaleRows (rows : List CanonRow) : List CanonRow :=
  match colMax (ctrColumn rows) with
  | some m => if m ≤ 1 then rows.map bumpCtr else rows
  | none => rows

/-- Lines 128-131 as an operation on the CTR column itself:
`if result_df['CTR'].max() <= 1: result_df['CTR'] = result_df['CTR'] * 100`. -/
def rescaleCTR (l : List ℚ) : List ℚ :=
  match colMax l with
  | some m => if m ≤ 1 then l.map (fun q => qmul q 100) else l
  | none => l

/-- The extraction steps of `process_search_console_file` after column
resolution (lines 89-141): top-10 filter and empty check, CTR
derivation, column selection/rename, CTR rescale. Date stamping (line
134) is handled by the aggregator model. When both the impressions and
the clicks column are missing, `impressions_col` stays `None` after the
line-83 substitution and `df_filtered[display_cols]` on line 114 raises
a `KeyError` (a `None` label), caught by the outer handler (line 143)
as a generic processing error. -/
def processAfterResolve (ds : RawDataset) (posC kwC : Str)
    (imprC clickC ctrC : Option Str) : Except PErr (List CanonRow) :=
  if (filterPos posC ds.rows).isEmpty then .error .emptySnapshot
  else
    match imprC with
    | none => .error .genericErr
    | some imC =>
        .ok (rescaleRows ((filterPos posC ds.rows).map (baseRow kwC posC imC clickC ctrC)))

/-- `process_search_console_file` (lines 47-145), continuing from the
split above: position check (77), impressions-to-clicks substitution
(81-83), keyword check (85), then the extraction steps. -/
def process_search_console_file (ds : RawDataset) : Except PErr (List CanonRow) :=
  match (resolveColumns ds.cols).position with
  | none => .error (.noPosition ds.cols)
  | some posC =>
    match (resolveColumns ds.cols).keyword with
    | none => .error (.noKeyword ds.cols)
    | some kwC =>
        processAfterResolve ds posC kwC
          (match (resolveColumns ds.cols).impressions with
           | some i => some i
           | none => (resolveColumns ds.cols).clicks)
          (resolveColumns ds.cols).clicks (resolveColumns ds.cols).ctr

/-- One row of the longitudinal table: a canonical row plus the Date
column added on line 135 (absent for files without a parsed date). -/
structure DRow where
  row : CanonRow
  date : Option ℕ
deriving DecidableEq

/-- Stamp every row of one file's snapshot with that file's date. -/
def stampRows (p : List CanonRow × Option ℕ) : List DRow :=
  p.1.map (fun r => DRow.mk r p.2)

/-- Lines 155-171: the per-file snapshots are accumulated in file order
and concatenated row-wise (`pd.concat`, no de-duplication). -/
def concatSnapshots (snaps : List (List CanonRow × Option ℕ)) : List DRow :=
  (snaps.map stampRows).flatten

/-- `combined_df[combined_df['Date'] == d]`: rows of the longitudinal
table carrying exactly date `d` (a null date never equals `d`). -/
def filterByDate (t : List DRow) (d : ℕ) : List DRow :=
  t.filter (fun r => r.date == some d)

/-- The canonical rows of the longitudinal table at date `d`. -/
def rowsAt (t : List DRow) (d : ℕ) : List CanonRow :=
  (filterByDate t d).map DRow.row

/-- `load_all_historical_data` (lines 148-173): process each file
(already decoded, with its parsed date) independently, skip failures,
and concatenate the successful snapshots; `None` when no file yields
a usable snapshot. -/
def load_all_historical_data (files : List (RawDataset × Option ℕ)) :
    Option (List DRow × List (Option ℕ)) :=
  let results := files.filterMap (fun p =>
    match process_search_console_file p.1 with
    | .ok rows => some (rows, p.2)
    | .error _ => none)
  if results.isEmpty then none
  else some (concatSnapshots results, results.map Prod.snd)

/-- One row of the outer join of lines 223-226: a keyword together
with its row in the latest snapshot (if any) and in the previous
snapshot (if any). -/
structure MergedRow where
  keyword : Cell
  cur : Option CanonRow
  prev : Option CanonRow
deriving DecidableEq

/-- Line 229: `merged['Position Change'] =
merged['Avg Position_prev'].fillna(merged['Avg Position']) - merged['Avg Position']`.
When the current position is NaN (keyword only in the previous
snapshot) the difference is NaN, modelled as `none`. -/
def posChange (m : MergedRow) : Option ℚ :=
  match m.cur with
  | none => none
  | some c => some (qsub ((m.prev.map CanonRow.position).getD c.position) c.position)

/-- Sort key for the movers lists (only applied to rows with a present,
sign-definite change). -/
def chKey (m : MergedRow) : ℚ := (posChange m).getD 0

/-- `merged['Position Change'] > 0` (NaN compares false). -/
def isPosChange (m : MergedRow) : Bool :=
  match posChange m with
  | some c => decide (0 < c)
  | none => false

/-- `merged['Position Change'] < 0` (NaN compares false). -/
def isNegChange (m : MergedRow) : Bool :=
  match posChange m with
  | some c => decide (c < 0)
  | none => false

/-- Descending comparison by a rational key. -/
def keyGE {α : Type} (f : α → ℚ) (a b : α) : Prop := f b ≤ f a

/-- Ascending comparison by a rational key. -/
def keyLE {α : Type} (f : α → ℚ) (a b : α) : Prop := f a ≤ f b

instance {α : Type} (f : α → ℚ) : DecidableRel (keyGE f) :=
  fun a b => inferInstanceAs (Decidable (f b ≤ f a))

instance {α : Type} (f : α → ℚ) : DecidableRel (keyLE f) :=
  fun a b => inferInstanceAs (Decidable (f a ≤ f b))

instance {α : Type} (f : α → ℚ) : IsTotal α (keyGE f) :=
  ⟨fun a b => le_total (f b) (f a)⟩

instance {α : Type} (f : α → ℚ) : IsTotal α (keyLE f) :=
  ⟨fun a b => le_total (f a) (f b)⟩

instance {α : Type} (f : α → ℚ) : IsTrans α (keyGE f) :=
  ⟨fun _ _ _ h1 h2 => le_trans h2 h1⟩

instance {α : Type} (f : α → ℚ) : IsTrans α (keyLE f) :=
  ⟨fun _ _ _ h1 h2 => le_trans h1 h2⟩

/-- Sort descending by key (`sort_values(ascending=False)` / `nlargest`). -/
def sortDescBy {α : Type} (f : α → ℚ) (l : List α) : List α :=
  List.insertionSort (keyGE f) l

/-- Sort ascending by key (`nsmallest`). -/
def sortAscBy {α : Type} (f : α → ℚ) (l : List α) : List α :=
  List.insertionSort (keyLE f) l

/-- Lines 223-226: `latest_keywords.join(previous_keywords, rsuffix='_prev',
how='outer')` — one merged row per keyword of either snapshot, looked up
in each side (keywords are unique per snapshot in the data model, so the
index join is a lookup). -/
def mergedRows (latest previous : List CanonRow) : List MergedRow :=
  ((latest.map CanonRow.keyword) ++ (previous.map CanonRow.keyword)).dedup.map
    (fun k => ⟨k, latest.find? (fun r => r.keyword == k),
                  previous.find? (fun r => r.keyword == k)⟩)

/-- Lines 231-234: rows with positive change, the 20 largest first. -/
def improvementsOf (latest previous : List CanonRow) : List MergedRow :=
  (sortDescBy chKey ((mergedRows latest previous).filter isPosChange)).take 20

/-- Lines 236-239: rows with negative change, the 20 smallest first. -/
def declinesOf (latest previous : List CanonRow) : List MergedRow :=
  (sortAscBy chKey ((mergedRows latest previous).filter isNegChange)).take 20

/-- Lines 241-244: rows of the latest snapshot whose keyword is absent
from the previous snapshot, sorted by impressions descending. -/
def newKeywordsOf (latest previous : List CanonRow) : List CanonRow :=
  sortDescBy (fun r => r.impressions)
    (latest.filter (fun r => !(previous.any (fun p => p.keyword == r.keyword))))

/-- Lines 246-249: rows of the previous snapshot whose keyword is absent
from the latest snapshot, sorted by impressions descending. -/
def droppedKeywordsOf (latest previous : List CanonRow) : List CanonRow :=
  sortDescBy (fun r => r.impressions)
    (previous.filter (fun r => !(latest.any (fun p => p.keyword == r.keyword))))

/-- The `insights` dictionary of `get_historical_insights` (a key left
out for an empty subset is modelled as the empty list). -/
structure Insights where
  improvements : List MergedRow
  declines : List MergedRow
  newKeywords : List CanonRow
  droppedKeywords : List CanonRow
deriving DecidableEq

/-- Lines 222-249 for a fixed pair of snapshot dates. -/
def computeInsights (latest previous : List CanonRow) : Insights :=
  ⟨improvementsOf latest previous, declinesOf latest previous,
   newKeywordsOf latest previous, droppedKeywordsOf latest previous⟩

/-- The non-null parsed dates of the loaded files, in file order. -/
def nonNullDates (fds : List (ℕ × Option ℕ)) : List ℕ := fds.filterMap Prod.snd

/-- `get_historical_insights` (lines 204-251). Dates are abstract day
ordinals (`ℕ`); `hasDateCol` models `'Date' in combined_df.columns`;
`fileDates` carries one entry per loaded file (identifier, parsed date).
The code sorts the non-null dates with multiplicity and compares
`dates[-1]` against `dates[-2]`. -/
def get_historical_insights (hasDateCol : Bool) (combined : List DRow)
    (fileDates : List (ℕ × Option ℕ)) : Option (Insights × ℕ × ℕ) :=
  if hasDateCol = false ∨ fileDates.length < 2 then none
  else
    match (List.insertionSort (fun a b => a ≤ b) (nonNullDates fileDates)).reverse with
    | d1 :: d2 :: _ =>
        some (computeInsights (rowsAt combined d1) (rowsAt combined d2), d1, d2)
    | _ => none

/-- A calendar date as parsed from a filename. -/
structure SDate where
  year : ℕ
  month : ℕ
  day : ℕ
deriving DecidableEq

/-- Gregorian leap year (as in Python's `datetime`). -/
def isLeap (y : ℕ) : Bool := (y % 4 == 0 && y % 100 != 0) || y % 400 == 0

/-- Days in a month (as in Python's `datetime`). -/
def daysInMonth (y m : ℕ) : ℕ :=
  if m = 2 then (if isLeap y then 29 else 28)
  else if m = 4 ∨ m = 6 ∨ m = 9 ∨ m = 11 then 30 else 31

/-- Strict `datetime.strptime` calendar validity: year 1-9999, valid
month, day within the month. -/
def validDate (y m d : ℕ) : Bool :=
  decide (1 ≤ y) && decide (y ≤ 9999) && decide (1 ≤ m) && decide (m ≤ 12) &&
  decide (1 ≤ d) && decide (d ≤ daysInMonth y m)

/-- ASCII digit test (`\d` of the patterns). -/
def isDigitB (c : Char) : Bool := c.isDigit

/-- Numeric value of a digit string. -/
def digitsToNat (s : Str) : ℕ := s.foldl (fun a c => a * 10 + (c.toNat - 48)) 0

/-- Does `(\d{4})-(\d{2})-(\d{2})` match at the head of the string? -/
def dashShape (s : Str) : Bool :=
  match s with
  | a :: b :: c :: d :: e :: f :: g :: h :: i :: j :: _ =>
      isDigitB a && isDigitB b && isDigitB c && isDigitB d && (e == '-') &&
      isDigitB f && isDigitB g && (h == '-') && isDigitB i && isDigitB j
  | _ => false

/-- `re.search`: the leftmost `YYYY-MM-DD`-shaped match (its ten
characters), scanning start positions left to right. -/
def scanDash : Str → Option Str
  | [] => none
  | c :: rest => if dashShape (c :: rest) then some ((c :: rest).take 10) else scanDash rest

/-- `datetime.strptime(match.group(0), '%Y-%m-%d')`: strict parse of a
ten-character match, `none` on an invalid calendar date. -/
def parseDashMatch (t : Str) : Option SDate :=
  let y := digitsToNat (t.take 4)
  let m := digitsToNat ((t.drop 5).take 2)
  let d := digitsToNat ((t.drop 8).take 2)
  if validDate y m d then some ⟨y, m, d⟩ else none

/-- Does `(\d{4})(\d{2})(\d{2})` (8 consecutive digits) match at the
head of the string? -/
def eightShape (s : Str) : Bool :=
  ((s.take 8).length == 8) && (s.take 8).all isDigitB

/-- `re.search`: the leftmost run of 8 consecutive digits. -/
def scan8 : Str → Option Str
  | [] => none
  | c :: rest => if eightShape (c :: rest) then some ((c :: rest).take 8) else scan8 rest

/-- `datetime.strptime(match.group(0), '%Y%m%d')`: strict parse of an
eight-digit match. -/
def parse8Match (t : Str) : Option SDate :=
  let y := digitsToNat (t.take 4)
  let m := digitsToNat ((t.drop 4).take 2)
  let d := digitsToNat ((t.drop 6).take 2)
  if validDate y m d then some ⟨y, m, d⟩ else none

/-- Strategy 1 of `extract_date_from_filename` (lines 22-27). -/
def dashStrategy (name : Str) : Option SDate := (scanDash name).bind parseDashMatch

/-- Strategy 2 of `extract_date_from_filename` (lines 30-35). -/
def eightStrategy (name : Str) : Option SDate := (scan8 name).bind parse8Match

/-- `extract_date_from_filename` (lines 19-44). The file-system
fallback of lines 38-42 — the modification timestamp's date when the
file exists on disk, nothing otherwise — is an oracle argument
`mtimeDate`. -/
def extract_date_from_filename (name : Str) (mtimeDate : Option SDate) : Option SDate :=
  match dashStrategy name with
  | some d => some d
  | none =>
    match eightStrategy name with
    | some d => some d
    | none => mtimeDate

/-- Raw dataset with Query and Position columns only: both mandatory
fields resolve, but impressions and clicks are both missing. -/
def dsNoVol : RawDataset :=
  ⟨[cs "Query", cs "Position"],
   [⟨[(cs "Query", Cell.str (cs "a")), (cs "Position", Cell.num 5)]⟩]⟩

/-- Raw dataset whose only row sits at position 20: resolution succeeds
but the top-10 filter keeps nothing. -/
def dsEmpty : RawDataset :=
  ⟨[cs "Query", cs "Position", cs "Impressions"],
   [⟨[(cs "Query", Cell.str (cs "a")), (cs "Position", Cell.num 20),
      (cs "Impressions", Cell.num 5)]⟩]⟩

/-- Raw row ("buy shoes", Position 3, Impressions 500, Clicks 50). -/
def buyRaw : RawRow :=
  ⟨[(cs "Query", Cell.str (cs "buy shoes")), (cs "Position", Cell.num 3),
    (cs "Impressions", Cell.num 500), (cs "Clicks", Cell.num 50)]⟩

/-- Raw row ("cheap shoes", Position 12, Impressions 1000, Clicks 5). -/
def cheapRaw : RawRow :=
  ⟨[(cs "Query", Cell.str (cs "cheap shoes")), (cs "Position", Cell.num 12),
    (cs "Impressions", Cell.num 1000), (cs "Clicks", Cell.num 5)]⟩

/-- The spec scenario dataset: columns [Query, Position, Impressions,
Clicks], rows ("buy shoes", 3, 500, 50) and ("cheap shoes", 12, 1000, 5). -/
def exDS : RawDataset :=
  ⟨[cs "Query", cs "Position", cs "Impressions", cs "Clicks"], [buyRaw, cheapRaw]⟩

/-- The snapshot the code extracts from `exDS`: only "buy shoes"
(position 3), with derived CTR 10. -/
def exRows : List CanonRow :=
  [⟨Cell.str (cs "buy shoes"), 3, 500, some 50, some 10⟩]

/-- A dataset whose single derived CTR value is 0.1 (clicks 1,
impressions 1000): below the ≤ 1 rescale threshold. -/
def lowDS : RawDataset :=
  ⟨[cs "Query", cs "Position", cs "Impressions", cs "Clicks"],
   [⟨[(cs "Query", Cell.str (cs "a")), (cs "Position", Cell.num 5),
      (cs "Impressions", Cell.num 1000), (cs "Clicks", Cell.num 1)]⟩]⟩

/-- The "shoes" keyword cell of the spec's comparison scenario. -/
def shoesKw : Cell := Cell.str (cs "shoes")

/-- "shoes" at position 2 in the current snapshot. -/
def shoesCur : CanonRow := ⟨shoesKw, 2, 100, some 10, none⟩

/-- "shoes" at position 5 in the baseline snapshot. -/
def shoesPrev : CanonRow := ⟨shoesKw, 5, 80, some 8, none⟩

theorem qmul_eq (a b : ℚ) : qmul a b = a * b := by
  rw [qmul, Rat.mkRat_eq_div]
  push_cast
  rw [← div_mul_div_comm, Rat.num_div_den, Rat.num_div_den]

theorem qinv_eq (b : ℚ) : qinv b = b⁻¹ := by
  rw [qinv, Rat.mkRat_eq_divInt, Rat.inv_def']
  rcases lt_trichotomy b.num 0 with hneg | hzero | hpos
  · have hnat : (b.num.natAbs : ℤ) = -b.num := Int.ofNat_natAbs_of_nonpos (le_of_lt hneg)
    rw [Int.sign_eq_neg_one_of_neg hneg, hnat, mul_neg_one]
    exact Rat.neg_divInt_neg _ _
  · have hb : b = 0 := by
      have := Rat.num_eq_zero.mp hzero
      exact this
    subst hb
    simp
  · have hnat : (b.num.natAbs : ℤ) = b.num := Int.natAbs_of_nonneg (le_of_lt hpos)
    rw [Int.sign_eq_one_of_pos hpos, hnat, mul_one]

theorem qdiv_eq (a b : ℚ) : qdiv a b = a / b := by
  rw [qdiv, qmul_eq, qinv_eq, div_eq_mul_inv]

theorem qsub_eq (a b : ℚ) : qsub a b = a - b := by
  have ha : ((a.den : ℚ)) ≠ 0 := Nat.cast_ne_zero.mpr a.den_nz
  have hb : ((b.den : ℚ)) ≠ 0 := Nat.cast_ne_zero.mpr b.den_nz
  rw [qsub, Rat.mkRat_eq_div]
  push_cast
  conv_rhs => rw [← Rat.num_div_den a, ← Rat.num_div_den b]
  rw [div_sub_div _ _ ha hb]
  ring_nf

theorem isSubstr_trans (a b s : Str) (hab : a <:+: b)
    (h : isSubstr b s = true) : isSubstr a s = true := by
  simp only [isSubstr, decide_eq_true_eq] at h ⊢
  exact hab.trans h

/-- The three-way position test is equivalent to containing `"position"`. -/
theorem posCode_eq (c : Str) :
    posCode c = isSubstr (cs "position") (lowerTrim c) := by
  unfold posCode
  cases h : isSubstr (cs "position") (lowerTrim c)
  · have h1 : isSubstr (cs "avg. position") (lowerTrim c) = false := by
      cases h1 : isSubstr (cs "avg. position") (lowerTrim c)
      · rfl
      · rw [isSubstr_trans (cs "position") (cs "avg. position") _ (by decide) h1] at h
        exact h
    have h2 : isSubstr (cs "avg position") (lowerTrim c) = false := by
      cases h2 : isSubstr (cs "avg position") (lowerTrim c)
      · rfl
      · rw [isSubstr_trans (cs "position") (cs "avg position") _ (by decide) h2] at h
        exact h
    simp [h1, h2]
  · simp

theorem foldl_mapStep_position (cols : List Str) (m : Mapping) :
    (cols.foldl mapStep m).position =
      cols.foldl (fun acc c => if posCode c then some c else acc) m.position := by
  induction cols generalizing m with
  | nil => rfl
  | cons c t ih => simp only [List.foldl_cons, ih, mapStep]

theorem foldl_mapStep_impressions (cols : List Str) (m : Mapping) :
    (cols.foldl mapStep m).impressions =
      cols.foldl (fun acc c => if imprCode c then some c else acc) m.impressions := by
  induction cols generalizing m with
  | nil => rfl
  | cons c t ih => simp only [List.foldl_cons, ih, mapStep]

theorem foldl_mapStep_clicks (cols : List Str) (m : Mapping) :
    (cols.foldl mapStep m).clicks =
      cols.foldl (fun acc c => if clicksCode c then some c else acc) m.clicks := by
  induction cols generalizing m with
  | nil => rfl
  | cons c t ih => simp only [List.foldl_cons, ih, mapStep]

theorem foldl_mapStep_ctr (cols : List Str) (m : Mapping) :
    (cols.foldl mapStep m).ctr =
      cols.foldl (fun acc c => if ctrCode c then some c else acc) m.ctr := by
  induction cols generalizing m with
  | nil => rfl
  | cons c t ih => simp only [List.foldl_cons, ih, mapStep]

theorem foldl_mapStep_keyword (cols : List Str) (m : Mapping) :
    (cols.foldl mapStep m).keyword =
      cols.foldl (fun acc c => if kwCode c then some c else acc) m.keyword := by
  induction cols generalizing m with
  | nil => rfl
  | cons c t ih => simp only [List.foldl_cons, ih, mapStep]

theorem lastMatch_foldl_congr (p q : Str → Bool) (h : ∀ c, p c = q c)
    (l : List Str) (a : Option Str) :
    l.foldl (fun acc c => if p c then some c else acc) a =
    l.foldl (fun acc c => if q c then some c else acc) a := by
  induction l generalizing a with
  | nil => rfl
  | cons d u ihu => simp only [List.foldl_cons, h d, ihu]

theorem lastMatch_congr (p q : Str → Bool) (h : ∀ c, p c = q c)
    (l : List Str) : lastMatch p l = lastMatch q l :=
  lastMatch_foldl_congr p q h l none

/-- C1: for every ordered list of column names, the schema resolver assigns
to each canonical field exactly the last column (in input order) whose
lower-cased, trimmed name contains one of that field's keywords —
Position: "position"; Impressions: "impressions"; Clicks: "clicks";
CTR: "ctr" or "click-through rate"; Keyword: the seven query/keyword
variants — and assigns `none` when no column matches; a column matching
several fields is assigned to every such field (the five fields are
characterised independently); matching ignores surrounding case and
whitespace, e.g. a column named " POSITION " maps to the Position field. -/
theorem C1_schema_resolver_last_match (cols : List Str) :
    (resolveColumns cols).position =
      lastMatch (fun c => isSubstr (cs "position") (lowerTrim c)) cols
  ∧ (resolveColumns cols).impressions =
      lastMatch (fun c => isSubstr (cs "impressions") (lowerTrim c)) cols
  ∧ (resolveColumns cols).clicks =
      lastMatch (fun c => isSubstr (cs "clicks") (lowerTrim c)) cols
  ∧ (resolveColumns cols).ctr =
      lastMatch (fun c => isSubstr (cs "ctr") (lowerTrim c) ||
                          isSubstr (cs "click-through rate") (lowerTrim c)) cols
  ∧ (resolveColumns cols).keyword =
      lastMatch (fun c => isSubstr (cs "query") (lowerTrim c) ||
                          isSubstr (cs "queries") (lowerTrim c) ||
                          isSubstr (cs "keyword") (lowerTrim c) ||
                          isSubstr (cs "keywords") (lowerTrim c) ||
                          isSubstr (cs "search query") (lowerTrim c) ||
                          isSubstr (cs "top query") (lowerTrim c) ||
                          isSubstr (cs "top queries") (lowerTrim c)) cols
  ∧ (resolveColumns [cs " POSITION ", cs "Query"]).position = some (cs " POSITION ") := by
  refine ⟨?_, ?_, ?_, ?_, ?_, by decide⟩
  · rw [resolveColumns, foldl_mapStep_position,
      lastMatch_congr (fun c => isSubstr (cs "position") (lowerTrim c)) posCode
        (fun c => (posCode_eq c).symm) cols]
    rfl
  · rw [resolveColumns, foldl_mapStep_impressions]; rfl
  · rw [resolveColumns, foldl_mapStep_clicks]; rfl
  · rw [resolveColumns, foldl_mapStep_ctr]; rfl
  · rw [resolveColumns, foldl_mapStep_keyword]; rfl

theorem colMax_eq_none (l : List ℚ) : colMax l = none ↔ l = [] := by
  cases l with
  | nil => simp [colMax]
  | cons q t => simp [colMax]

theorem colMax_le (l : List ℚ) (m : ℚ) (h : colMax l = some m) :
    ∀ x ∈ l, x ≤ m := by
  induction l generalizing m with
  | nil => simp [colMax] at h
  | cons q t ih =>
    intro x hx
    rw [colMax] at h
    cases ht : colMax t with
    | none =>
      rw [ht] at h
      have ht0 : t = [] := (colMax_eq_none t).mp ht
      subst ht0
      simp at hx
      subst hx
      exact le_of_eq (by simpa using h)
    | some mt =>
      rw [ht] at h
      have hm : m = max q mt := by simpa using h.symm
      rcases List.mem_cons.mp hx with rfl | hxt
      · rw [hm]; exact le_max_left _ _
      · rw [hm]; exact le_trans (ih mt ht x hxt) (le_max_right _ _)

theorem colMax_mem (l : List ℚ) (m : ℚ) (h : colMax l = some m) : m ∈ l := by
  induction l generalizing m with
  | nil => simp [colMax] at h
  | cons q t ih =>
    rw [colMax] at h
    cases ht : colMax t with
    | none =>
      rw [ht] at h
      have : m = q := by simpa using h.symm
      simp [this]
    | some mt =>
      rw [ht] at h
      have hm : m = max q mt := by simpa using h.symm
      rcases max_choice q mt with hc | hc
      · rw [hm, hc]; exact List.mem_cons_self _ _
      · rw [hm, hc]; exact List.mem_cons_of_mem _ (ih mt ht)

theorem rescaleRows_cases (rows : List CanonRow) :
    rescaleRows rows = rows ∨ rescaleRows rows = rows.map bumpCtr := by
  unfold rescaleRows
  cases colMax (ctrColumn rows) with
  | none => exact Or.inl rfl
  | some m =>
    by_cases hm : m ≤ 1
    · simp [hm]
    · simp [hm]

theorem bumpCtr_position (r : CanonRow) : (bumpCtr r).position = r.position := rfl

theorem bumpCtr_clicks (r : CanonRow) : (bumpCtr r).clicks = r.clicks := rfl

theorem bumpCtr_impressions (r : CanonRow) : (bumpCtr r).impressions = r.impressions := rfl

theorem ctrColumn_map (l : List RawRow) (f : RawRow → CanonRow) (g : RawRow → ℚ)
    (h : ∀ x ∈ l, (f x).ctr = some (g x)) : ctrColumn (l.map f) = l.map g := by
  induction l with
  | nil => rfl
  | cons a t ih =>
    have ha := h a (List.mem_cons_self _ _)
    simp only [List.map_cons, ctrColumn, List.filterMap_cons, ha]
    exact congrArg _ (ih (fun x hx => h x (List.mem_cons_of_mem _ hx)))

theorem zip_map_pred {α β : Type} (l : List α) (f : α → β) (P : β → α → Prop)
    (h : ∀ x ∈ l, P (f x) x) : ∀ p ∈ (l.map f).zip l, P p.1 p.2 := by
  induction l with
  | nil => intro p hp; simp at hp
  | cons a t ih =>
    intro p hp
    simp only [List.map_cons, List.zip_cons_cons, List.mem_cons] at hp
    rcases hp with rfl | hp
    · exact h a (List.mem_cons_self _ _)
    · exact ih (fun x hx => h x (List.mem_cons_of_mem _ hx)) p hp

/-- C6 counterexample: a snapshot whose only CTR value is 1/2 — a value
inside [0,100] and not zero — is changed by the rescale heuristic (its
maximum is ≤ 1, so it is multiplied by 100), refuting idempotence as
claimed. -/
theorem C6_cex_half_rescaled :
    rescaleCTR [mkRat 1 2] = [(50 : ℚ)] ∧ ¬ ((50 : ℚ) = mkRat 1 2) ∧
    (0 : ℚ) ≤ mkRat 1 2 ∧ mkRat 1 2 ≤ 100 ∧ ¬ (mkRat 1 2 = 0) := by
  refine ⟨by decide, by decide, by decide, by decide, by decide⟩

/-- C6 amended: the rescale heuristic leaves a CTR column unchanged
exactly on the snapshots where some value exceeds 1 — and also on the
degenerate all-zero column (0 × 100 = 0); columns with 0 < max ≤ 1 are
multiplied by 100 even when already inside [0,100]. -/
theorem C6_rescale_fixed (l : List ℚ)
    (h : (∃ x ∈ l, 1 < x) ∨ (∀ x ∈ l, x = 0)) : rescaleCTR l = l := by
  unfold rescaleCTR
  cases hm : colMax l with
  | none => rfl
  | some m =>
    rcases h with ⟨x, hx, hx1⟩ | hall
    · have hxm := colMax_le l m hm x hx
      have hnle : ¬ m ≤ 1 := fun hle => absurd (le_trans hxm hle) (not_le.mpr hx1)
      simp [hnle]
    · by_cases hle : m ≤ 1
      · simp only [hle, if_true]
        have : ∀ x ∈ l, qmul x 100 = x := by
          intro x hx
          rw [qmul_eq, hall x hx, zero_mul]
        rw [List.map_congr_left this, List.map_id']
      · simp [hle]

theorem C6_witness : rescaleCTR [(2 : ℚ)] = [(2 : ℚ)] :=
  C6_rescale_fixed [(2 : ℚ)] (Or.inl ⟨2, by decide, by decide⟩)

theorem process_eq_noPosition (ds : RawDataset)
    (hp : (resolveColumns ds.cols).position = none) :
    process_search_console_file ds = .error (.noPosition ds.cols) := by
  unfold process_search_console_file
  rw [hp]

theorem process_eq_noKeyword (ds : RawDataset) (posC : Str)
    (hp : (resolveColumns ds.cols).position = some posC)
    (hk : (resolveColumns ds.cols).keyword = none) :
    process_search_console_file ds = .error (.noKeyword ds.cols) := by
  unfold process_search_console_file
  rw [hp, hk]

theorem process_eq_of_resolve (ds : RawDataset) (posC kwC : Str)
    (hp : (resolveColumns ds.cols).position = some posC)
    (hk : (resolveColumns ds.cols).keyword = some kwC) :
    process_search_console_file ds =
      processAfterResolve ds posC kwC
        (match (resolveColumns ds.cols).impressions with
         | some i => some i
         | none => (resolveColumns ds.cols).clicks)
        (resolveColumns ds.cols).clicks (resolveColumns ds.cols).ctr := by
  unfold process_search_console_file
  rw [hp, hk]

theorem processAfterResolve_not_schema_err (ds : RawDataset) (posC kwC : Str)
    (imprC clickC ctrC : Option Str) (cols₀ : List Str) :
    processAfterResolve ds posC kwC imprC clickC ctrC ≠ .error (.noPosition cols₀) ∧
    processAfterResolve ds posC kwC imprC clickC ctrC ≠ .error (.noKeyword cols₀) := by
  unfold processAfterResolve
  by_cases hke : (filterPos posC ds.rows).isEmpty <;> cases imprC <;> simp [hke]

theorem mem_rescaleRows_map {l : List RawRow} {f : RawRow → CanonRow} {r : CanonRow}
    (h : r ∈ rescaleRows (l.map f)) : ∃ x ∈ l, r = f x ∨ r = bumpCtr (f x) := by
  rcases rescaleRows_cases (l.map f) with hc | hc <;> rw [hc] at h
  · obtain ⟨x, hx, rfl⟩ := List.mem_map.mp h
    exact ⟨x, hx, Or.inl rfl⟩
  · rw [List.map_map] at h
    obtain ⟨x, hx, rfl⟩ := List.mem_map.mp h
    exact ⟨x, hx, Or.inr rfl⟩

/-- C3 amended: a failure that reports the dataset's available column
names happens if and only if no column maps to Position or no column
maps to Keyword; a missing Impressions column with a Clicks column
present is never fatal (the Clicks column is substituted as the volume
proxy, so every snapshot row carries Clicks equal to its Impressions
value); but when Impressions and Clicks are both absent and the top-10
filter keeps at least one row, the file's processing does fail — with a
generic processing error, not a schema-resolution report. -/
theorem C3_schema_failure_modes :
    (∀ ds : RawDataset,
      (process_search_console_file ds = .error (.noPosition ds.cols) ∨
       process_search_console_file ds = .error (.noKeyword ds.cols)) ↔
      ((resolveColumns ds.cols).position = none ∨ (resolveColumns ds.cols).keyword = none))
  ∧ (∀ (ds : RawDataset) (posC kwC clC : Str),
      (resolveColumns ds.cols).position = some posC →
      (resolveColumns ds.cols).keyword = some kwC →
      (resolveColumns ds.cols).impressions = none →
      (resolveColumns ds.cols).clicks = some clC →
      (process_search_console_file ds = .error .emptySnapshot ∨
       ∃ rows, process_search_console_file ds = .ok rows ∧
         ∀ r ∈ rows, r.clicks = some r.impressions))
  ∧ (∀ (ds : RawDataset) (posC kwC : Str),
      (resolveColumns ds.cols).position = some posC →
      (resolveColumns ds.cols).keyword = some kwC →
      (resolveColumns ds.cols).impressions = none →
      (resolveColumns ds.cols).clicks = none →
      filterPos posC ds.rows ≠ [] →
      process_search_console_file ds = .error .genericErr) := by
  refine ⟨?_, ?_, ?_⟩
  · intro ds
    constructor
    · intro h
      by_contra hcon
      push_neg at hcon
      obtain ⟨hp, hk⟩ := hcon
      obtain ⟨posC, hposC⟩ := Option.ne_none_iff_exists'.mp hp
      obtain ⟨kwC, hkwC⟩ := Option.ne_none_iff_exists'.mp hk
      rw [process_eq_of_resolve ds posC kwC hposC hkwC] at h
      rcases h with h | h
      · exact (processAfterResolve_not_schema_err ds posC kwC _ _ _ ds.cols).1 h
      · exact (processAfterResolve_not_schema_err ds posC kwC _ _ _ ds.cols).2 h
    · intro h
      rcases h with hp | hk
      · exact Or.inl (process_eq_noPosition ds hp)
      · cases hposC : (resolveColumns ds.cols).position with
        | none => exact Or.inl (process_eq_noPosition ds hposC)
        | some posC => exact Or.inr (process_eq_noKeyword ds posC hposC hk)
  · intro ds posC kwC clC hp hk him hcl
    rw [process_eq_of_resolve ds posC kwC hp hk, him, hcl]
    unfold processAfterResolve
    by_cases hke : (filterPos posC ds.rows).isEmpty
    · rw [if_pos hke]
      exact Or.inl rfl
    · rw [if_neg hke]
      refine Or.inr ⟨_, rfl, ?_⟩
      intro r hr
      obtain ⟨x, _, hx⟩ := mem_rescaleRows_map hr
      rcases hx with rfl | rfl
      · rfl
      · rfl
  · intro ds posC kwC hp hk him hcl hne
    rw [process_eq_of_resolve ds posC kwC hp hk, him, hcl]
    unfold processAfterResolve
    rw [if_neg (fun hke => hne (List.isEmpty_iff.mp hke))]

/-- C3 counterexample: a dataset with columns [Query, Position] — both
mandatory fields resolve, Impressions and Clicks are both missing —
and a row at position 5. The claim says volume-dependent operations
are skipped and processing does not fail; the code fails with a
generic processing error. -/
theorem C3_cex_no_volume_is_fatal :
    process_search_console_file dsNoVol = .error .genericErr ∧
    ¬ ((resolveColumns dsNoVol.cols).position = none) ∧
    ¬ ((resolveColumns dsNoVol.cols).keyword = none) := by
  refine ⟨by decide, by decide, by decide⟩

theorem C3_witness :
    process_search_console_file dsNoVol = .error .genericErr :=
  C3_schema_failure_modes.2.2 dsNoVol (cs "Position") (cs "Query")
    (by decide) (by decide) (by decide) (by decide) (by decide)

theorem process_ok_shape (ds : RawDataset) (rows : List CanonRow)
    (hok : process_search_console_file ds = .ok rows) :
    ∃ posC kwC imC,
      (resolveColumns ds.cols).position = some posC ∧
      (resolveColumns ds.cols).keyword = some kwC ∧
      (match (resolveColumns ds.cols).impressions with
       | some i => some i
       | none => (resolveColumns ds.cols).clicks) = some imC ∧
      (filterPos posC ds.rows).isEmpty = false ∧
      rows = rescaleRows ((filterPos posC ds.rows).map
        (baseRow kwC posC imC (resolveColumns ds.cols).clicks (resolveColumns ds.cols).ctr)) := by
  cases hp : (resolveColumns ds.cols).position with
  | none =>
    rw [process_eq_noPosition ds hp] at hok
    exact absurd hok (by simp)
  | some posC =>
    cases hk : (resolveColumns ds.cols).keyword with
    | none =>
      rw [process_eq_noKeyword ds posC hp hk] at hok
      exact absurd hok (by simp)
    | some kwC =>
      rw [process_eq_of_resolve ds posC kwC hp hk] at hok
      unfold processAfterResolve at hok
      by_cases hke : (filterPos posC ds.rows).isEmpty
      · rw [if_pos hke] at hok
        exact absurd hok (by simp)
      · rw [if_neg hke] at hok
        revert hok
        cases hm : (match (resolveColumns ds.cols).impressions with
                    | some i => some i
                    | none => (resolveColumns ds.cols).clicks) with
        | none =>
          intro hok
          exact absurd hok (by simp)
        | some imC =>
          intro hok
          exact ⟨posC, kwC, imC, rfl, rfl, rfl, by simpa using hke, (Except.ok.inj hok).symm⟩

/-- C9 amended: every successfully extracted snapshot is non-empty and
all its rows have Position in [1, 10]; when the mandatory columns
resolve, the recoverable empty-snapshot failure happens exactly when no
raw row has Position in [1, 10]; and — provided an Impressions or a
Clicks column resolves — extraction succeeds exactly when some raw row
has Position in [1, 10]. (When both volume columns are missing,
extraction instead fails with a generic processing error even though
rows lie in range: see the counterexample.) -/
theorem C9_snapshot_position_range :
    (∀ (ds : RawDataset) (rows : List CanonRow),
       process_search_console_file ds = .ok rows →
       rows ≠ [] ∧ ∀ r ∈ rows, 1 ≤ r.position ∧ r.position ≤ 10)
  ∧ (∀ (ds : RawDataset) (posC kwC : Str),
       (resolveColumns ds.cols).position = some posC →
       (resolveColumns ds.cols).keyword = some kwC →
       ((process_search_console_file ds = .error .emptySnapshot ↔
           ∀ r ∈ ds.rows, ¬ (1 ≤ (r.val posC).toQ ∧ (r.val posC).toQ ≤ 10))
        ∧ (((resolveColumns ds.cols).impressions.isSome ∨
              (resolveColumns ds.cols).clicks.isSome) →
           ((∃ rows, process_search_console_file ds = .ok rows) ↔
             ¬ ∀ r ∈ ds.rows, ¬ (1 ≤ (r.val posC).toQ ∧ (r.val posC).toQ ≤ 10))))) := by
  constructor
  · intro ds rows hok
    obtain ⟨posC, kwC, imC, hp, hk, hm, hke, hrows⟩ := process_ok_shape ds rows hok
    constructor
    · intro h0
      rw [h0] at hrows
      have hkept : filterPos posC ds.rows ≠ [] := by
        intro hnil
        rw [hnil] at hke
        simp at hke
      rcases rescaleRows_cases ((filterPos posC ds.rows).map
          (baseRow kwC posC imC (resolveColumns ds.cols).clicks (resolveColumns ds.cols).ctr))
        with hc | hc <;> rw [hc] at hrows
      · exact hkept (List.map_eq_nil_iff.mp hrows.symm)
      · rw [List.map_map] at hrows
        exact hkept (List.map_eq_nil_iff.mp hrows.symm)
    · intro r hr
      rw [hrows] at hr
      obtain ⟨x, hx, hrx⟩ := mem_rescaleRows_map hr
      have hx2 := List.mem_filter.mp hx
      have hrange := hx2.2
      rw [inPosRange, Bool.and_eq_true, decide_eq_true_eq, decide_eq_true_eq] at hrange
      have hpos : r.position = (x.val posC).toQ := by
        rcases hrx with rfl | rfl
        · rfl
        · rfl
      rw [hpos]
      exact hrange
  · intro ds posC kwC hp hk
    have hfil : (filterPos posC ds.rows = []) ↔
        ∀ r ∈ ds.rows, ¬ (1 ≤ (r.val posC).toQ ∧ (r.val posC).toQ ≤ 10) := by
      rw [filterPos, List.filter_eq_nil_iff]
      constructor
      · intro h r hr
        have := h r hr
        rw [inPosRange, Bool.and_eq_true, decide_eq_true_eq, decide_eq_true_eq] at this
        exact this
      · intro h r hr
        rw [inPosRange, Bool.and_eq_true, decide_eq_true_eq, decide_eq_true_eq]
        exact h r hr
    constructor
    · rw [process_eq_of_resolve ds posC kwC hp hk]
      unfold processAfterResolve
      by_cases hke : (filterPos posC ds.rows).isEmpty
      · rw [if_pos hke]
        simp only [true_iff]
        exact hfil.mp (List.isEmpty_iff.mp hke)
      · rw [if_neg hke]
        constructor
        · intro h
          revert h
          cases hm : (match (resolveColumns ds.cols).impressions with
                      | some i => some i
                      | none => (resolveColumns ds.cols).clicks) with
          | none => intro h; exact absurd h (by simp)
          | some imC => intro h; exact absurd h (by simp)
        · intro h
          exact absurd (List.isEmpty_iff.mpr (hfil.mpr h)) hke
    · intro hv
      constructor
      · rintro ⟨rows, hok⟩
        obtain ⟨posC2, kwC2, imC, hp2, hk2, hm, hke, _⟩ := process_ok_shape ds rows hok
        rw [hp] at hp2
        have hpc : posC2 = posC := by
          cases hp2
          rfl
        subst hpc
        intro hall
        rw [← hfil] at hall
        rw [hall] at hke
        simp at hke
      · intro hne
        have hkept : filterPos posC ds.rows ≠ [] := fun h0 => hne (hfil.mp h0)
        have hke : (filterPos posC ds.rows).isEmpty = false := by
          cases hkeb : (filterPos posC ds.rows).isEmpty
          · rfl
          · exact absurd (List.isEmpty_iff.mp hkeb) hkept
        have hm : ∃ imC, (match (resolveColumns ds.cols).impressions with
                          | some i => some i
                          | none => (resolveColumns ds.cols).clicks) = some imC := by
          cases him : (resolveColumns ds.cols).impressions with
          | some i => exact ⟨i, rfl⟩
          | none =>
            rcases hv with hv | hv
            · rw [him] at hv
              simp at hv
            · obtain ⟨c, hc⟩ := Option.isSome_iff_exists.mp hv
              exact ⟨c, by rw [hc]⟩
        obtain ⟨imC, hm⟩ := hm
        have heq : process_search_console_file ds =
            .ok (rescaleRows ((filterPos posC ds.rows).map
              (baseRow kwC posC imC (resolveColumns ds.cols).clicks
                (resolveColumns ds.cols).ctr))) := by
          rw [process_eq_of_resolve ds posC kwC hp hk, hm]
          unfold processAfterResolve
          rw [hke]
          simp
        exact ⟨_, heq⟩

/-- C9 counterexample: in the dataset with columns [Query, Position]
and one row at position 5, a row lies in [1, 10], yet extraction
neither succeeds nor fails with the recoverable empty-snapshot error —
it fails with a generic processing error (both volume columns are
missing), refuting the claimed dichotomy. -/
theorem C9_cex_in_range_but_fatal :
    process_search_console_file dsNoVol = .error .genericErr ∧
    ¬ (process_search_console_file dsNoVol = .error .emptySnapshot) ∧
    (resolveColumns dsNoVol.cols).position = some (cs "Position") ∧
    filterPos (cs "Position") dsNoVol.rows ≠ [] := by
  refine ⟨by decide, by decide, by decide, by decide⟩

theorem C9_witness :
    process_search_console_file dsEmpty = .error .emptySnapshot :=
  ((C9_snapshot_position_range.2 dsEmpty (cs "Position") (cs "Query")
    (by decide) (by decide)).1).mpr (by decide)

/-- C5 amended: when the resolved mapping has no CTR column but both a
Clicks and an Impressions column, every snapshot row carries CTR equal
to `round(Clicks/Impressions*100, 2)` — provided the maximum derived
value exceeds 1; when every derived value is ≤ 1, the rescale heuristic
of lines 128-131 fires and every row instead carries that value
multiplied by 100. -/
theorem C5_derived_ctr (ds : RawDataset) (posC kwC clC imC : Str)
    (rows : List CanonRow)
    (hp : (resolveColumns ds.cols).position = some posC)
    (hk : (resolveColumns ds.cols).keyword = some kwC)
    (hctr : (resolveColumns ds.cols).ctr = none)
    (hcl : (resolveColumns ds.cols).clicks = some clC)
    (him : (resolveColumns ds.cols).impressions = some imC)
    (hok : process_search_console_file ds = .ok rows) :
    ((∃ x ∈ filterPos posC ds.rows,
        1 < round2 (qmul (qdiv (x.val clC).toQ (x.val imC).toQ) 100)) →
      rows = (filterPos posC ds.rows).map (baseRow kwC posC imC (some clC) none) ∧
      ∀ p ∈ rows.zip (filterPos posC ds.rows),
        p.1.ctr = some (round2 (qmul (qdiv (p.2.val clC).toQ (p.2.val imC).toQ) 100)))
  ∧ ((∀ x ∈ filterPos posC ds.rows,
        round2 (qmul (qdiv (x.val clC).toQ (x.val imC).toQ) 100) ≤ 1) →
      rows = (filterPos posC ds.rows).map (fun x => bumpCtr (baseRow kwC posC imC (some clC) none x)) ∧
      ∀ p ∈ rows.zip (filterPos posC ds.rows),
        p.1.ctr = some (qmul (round2 (qmul (qdiv (p.2.val clC).toQ (p.2.val imC).toQ) 100)) 100)) := by
  obtain ⟨posC2, kwC2, imC2, hp2, hk2, hm2, hke, hrows⟩ := process_ok_shape ds rows hok
  rw [hp] at hp2
  rw [hk] at hk2
  rw [him] at hm2
  cases hp2
  cases hk2
  cases hm2
  rw [hcl, hctr] at hrows
  have hctrval : ∀ x ∈ filterPos posC ds.rows,
      (baseRow kwC posC imC (some clC) none x).ctr =
        some (round2 (qmul (qdiv (x.val clC).toQ (x.val imC).toQ) 100)) :=
    fun x _ => rfl
  have hcol : ctrColumn ((filterPos posC ds.rows).map (baseRow kwC posC imC (some clC) none)) =
      (filterPos posC ds.rows).map
        (fun x => round2 (qmul (qdiv (x.val clC).toQ (x.val imC).toQ) 100)) :=
    ctrColumn_map _ _ _ (fun x _ => rfl)
  constructor
  · rintro ⟨x, hx, hgt⟩
    cases hcm : colMax ((filterPos posC ds.rows).map
        (fun x => round2 (qmul (qdiv (x.val clC).toQ (x.val imC).toQ) 100))) with
    | none =>
      have := (colMax_eq_none _).mp hcm
      rw [List.map_eq_nil_iff] at this
      rw [this] at hx
      simp at hx
    | some M =>
      have hxM := colMax_le _ M hcm _ (List.mem_map_of_mem _ hx)
      have hM1 : ¬ M ≤ 1 := fun hle => absurd (le_trans hxM hle) (not_le.mpr hgt)
      have hresc : rescaleRows ((filterPos posC ds.rows).map (baseRow kwC posC imC (some clC) none)) =
          (filterPos posC ds.rows).map (baseRow kwC posC imC (some clC) none) := by
        unfold rescaleRows
        rw [hcol]
        simp only [hcm]
        rw [if_neg hM1]
      rw [hresc] at hrows
      subst hrows
      refine ⟨rfl, ?_⟩
      exact zip_map_pred (filterPos posC ds.rows) (baseRow kwC posC imC (some clC) none)
        (fun b a => b.ctr = some (round2 (qmul (qdiv (a.val clC).toQ (a.val imC).toQ) 100)))
        (fun x _ => rfl)
  · intro hall
    have hne : filterPos posC ds.rows ≠ [] := by
      intro h0
      rw [h0] at hke
      simp at hke
    cases hcm : colMax ((filterPos posC ds.rows).map
        (fun x => round2 (qmul (qdiv (x.val clC).toQ (x.val imC).toQ) 100))) with
    | none =>
      have := (colMax_eq_none _).mp hcm
      rw [List.map_eq_nil_iff] at this
      exact absurd this hne
    | some M =>
      have hMmem := colMax_mem _ M hcm
      obtain ⟨x, hx, hxM⟩ := List.mem_map.mp hMmem
      have hM1 : M ≤ 1 := by
        rw [← hxM]
        exact hall x hx
      have hresc : rescaleRows ((filterPos posC ds.rows).map (baseRow kwC posC imC (some clC) none)) =
          ((filterPos posC ds.rows).map (baseRow kwC posC imC (some clC) none)).map bumpCtr := by
        unfold rescaleRows
        rw [hcol]
        simp only [hcm]
        rw [if_pos hM1]
      rw [hresc, List.map_map] at hrows
      subst hrows
      refine ⟨rfl, ?_⟩
      exact zip_map_pred (filterPos posC ds.rows)
        (fun x => bumpCtr (baseRow kwC posC imC (some clC) none x))
        (fun b a => b.ctr = some (qmul (round2 (qmul (qdiv (a.val clC).toQ (a.val imC).toQ) 100)) 100))
        (fun x _ => rfl)

/-- C5 counterexample: dataset with one row, Clicks 1, Impressions
1000. The derived CTR is round(1/1000×100, 2) = 0.1, but because the
maximum derived value is ≤ 1 the rescale heuristic multiplies it by
100: the extracted snapshot carries CTR 10, not 0.1. -/
theorem C5_cex_rescale_overrides_formula :
    process_search_console_file lowDS =
      .ok [⟨Cell.str (cs "a"), 5, 1000, some 1, some 10⟩] ∧
    round2 (qmul (qdiv 1 1000) 100) = mkRat 1 10 ∧
    ¬ ((10 : ℚ) = mkRat 1 10) := by
  refine ⟨by decide, by decide, by decide⟩

theorem C5_witness :
    process_search_console_file exDS = .ok exRows ∧
    exRows = (filterPos (cs "Position") exDS.rows).map
      (baseRow (cs "Query") (cs "Position") (cs "Impressions") (some (cs "Clicks")) none) := by
  have h := (C5_derived_ctr exDS (cs "Position") (cs "Query") (cs "Clicks") (cs "Impressions")
    exRows (by decide) (by decide) (by decide) (by decide) (by decide) (by decide)).1
  exact ⟨by decide, (h ⟨buyRaw, by decide, by decide⟩).1⟩

theorem filterByDate_concatSnapshots_nil (L : List (List CanonRow × Option ℕ)) (d : ℕ)
    (h : ∀ p ∈ L, p.2 ≠ some d) :
    filterByDate (concatSnapshots L) d = [] := by
  induction L with
  | nil => rfl
  | cons a t ih =>
    have ha := h a (List.mem_cons_self _ _)
    have h1 : (stampRows a).filter (fun r => r.date == some d) = [] := by
      rw [List.filter_eq_nil_iff]
      intro r hr
      obtain ⟨x, _, rfl⟩ := List.mem_map.mp hr
      simp only [beq_iff_eq]
      exact ha
    have h2 := ih (fun p hp => h p (List.mem_cons_of_mem _ hp))
    rw [filterByDate, concatSnapshots] at h2 ⊢
    rw [List.map_cons, List.flatten_cons, List.filter_append, h1, h2]
    rfl

/-- C7: concatenating N single-file Snapshots via the Historical
Aggregator and filtering the longitudinal table back down to one Date
reproduces that Date's original Snapshot row-for-row — the added Date
column carries exactly that date, and dropping it recovers the
snapshot. The hypotheses state the presupposition of "that Date's
original Snapshot": the chosen date belongs to exactly one snapshot of
the collection. -/
theorem C7_roundtrip (pre post : List (List CanonRow × Option ℕ)) (s : List CanonRow) (d : ℕ)
    (hpre : ∀ p ∈ pre, p.2 ≠ some d) (hpost : ∀ p ∈ post, p.2 ≠ some d) :
    filterByDate (concatSnapshots (pre ++ (s, some d) :: post)) d =
      s.map (fun r => DRow.mk r (some d))
  ∧ rowsAt (concatSnapshots (pre ++ (s, some d) :: post)) d = s := by
  have hsplit : concatSnapshots (pre ++ (s, some d) :: post) =
      concatSnapshots pre ++ (stampRows (s, some d) ++ concatSnapshots post) := by
    rw [concatSnapshots, List.map_append, List.flatten_append, List.map_cons, List.flatten_cons]
    rfl
  have hfilpre : (concatSnapshots pre).filter (fun r => r.date == some d) = [] := by
    have := filterByDate_concatSnapshots_nil pre d hpre
    rwa [filterByDate] at this
  have hfilpost : (concatSnapshots post).filter (fun r => r.date == some d) = [] := by
    have := filterByDate_concatSnapshots_nil post d hpost
    rwa [filterByDate] at this
  have hfilself : (stampRows (s, some d)).filter (fun r => r.date == some d) =
      stampRows (s, some d) := by
    rw [List.filter_eq_self]
    intro r hr
    obtain ⟨x, _, rfl⟩ := List.mem_map.mp hr
    simp
  have hfil : filterByDate (concatSnapshots (pre ++ (s, some d) :: post)) d =
      s.map (fun r => DRow.mk r (some d)) := by
    rw [hsplit, filterByDate, List.filter_append, List.filter_append,
      hfilpre, hfilself, hfilpost]
    rw [List.nil_append, List.append_nil]
    rfl
  refine ⟨hfil, ?_⟩
  rw [rowsAt, hfil, List.map_map]
  exact List.map_id' s

theorem C7_witness :
    filterByDate (concatSnapshots ([([shoesPrev], some 2)] ++ ([shoesCur], some 5) :: [])) 5 =
      [DRow.mk shoesCur (some 5)] ∧
    rowsAt (concatSnapshots ([([shoesPrev], some 2)] ++ ([shoesCur], some 5) :: [])) 5 =
      [shoesCur] :=
  C7_roundtrip [([shoesPrev], some 2)] [] [shoesCur] 5 (by decide) (by decide)

theorem find?_keyword_of_nodup (l : List CanonRow)
    (hN : (l.map CanonRow.keyword).Nodup) (r : CanonRow) (hr : r ∈ l) :
    l.find? (fun x => x.keyword == r.keyword) = some r := by
  induction l with
  | nil => simp at hr
  | cons a t ih =>
    rw [List.map_cons, List.nodup_cons] at hN
    by_cases hb : a.keyword = r.keyword
    · rcases List.mem_cons.mp hr with rfl | hrt
      · exact List.find?_cons_of_pos t (by simp)
      · exact absurd (hb ▸ List.mem_map_of_mem CanonRow.keyword hrt) hN.1
    · rcases List.mem_cons.mp hr with rfl | hrt
      · exact absurd rfl hb
      · rw [List.find?_cons_of_neg t (by simpa using hb)]
        exact ih hN.2 hrt

theorem isPosChange_iff (m : MergedRow) :
    isPosChange m = true ↔ ∃ c, posChange m = some c ∧ 0 < c := by
  unfold isPosChange
  cases hpc : posChange m with
  | none => simp
  | some c => simp

theorem isNegChange_iff (m : MergedRow) :
    isNegChange m = true ↔ ∃ c, posChange m = some c ∧ c < 0 := by
  unfold isNegChange
  cases hpc : posChange m with
  | none => simp
  | some c => simp

theorem take_sortDescBy_subset {α : Type} (f : α → ℚ) (l : List α) (n : ℕ) (x : α)
    (hx : x ∈ (sortDescBy f l).take n) : x ∈ l :=
  (List.perm_insertionSort _ l).mem_iff.mp (List.mem_of_mem_take hx)

theorem take_sortAscBy_subset {α : Type} (f : α → ℚ) (l : List α) (n : ℕ) (x : α)
    (hx : x ∈ (sortAscBy f l).take n) : x ∈ l :=
  (List.perm_insertionSort _ l).mem_iff.mp (List.mem_of_mem_take hx)

theorem take_sortDescBy_maximal {α : Type} (f : α → ℚ) (l : List α) (n : ℕ) (x y : α)
    (hxl : x ∈ l) (hxn : x ∉ (sortDescBy f l).take n)
    (hy : y ∈ (sortDescBy f l).take n) : f x ≤ f y := by
  have hs : List.Sorted (keyGE f) (sortDescBy f l) := List.sorted_insertionSort _ _
  have hxs : x ∈ sortDescBy f l := (List.perm_insertionSort _ l).mem_iff.mpr hxl
  have hsplit : x ∈ (sortDescBy f l).take n ∨ x ∈ (sortDescBy f l).drop n := by
    rw [← List.mem_append, List.take_append_drop]
    exact hxs
  rcases hsplit with h | h
  · exact absurd h hxn
  · exact hs.rel_of_mem_take_of_mem_drop hy h

theorem take_sortAscBy_minimal {α : Type} (f : α → ℚ) (l : List α) (n : ℕ) (x y : α)
    (hxl : x ∈ l) (hxn : x ∉ (sortAscBy f l).take n)
    (hy : y ∈ (sortAscBy f l).take n) : f y ≤ f x := by
  have hs : List.Sorted (keyLE f) (sortAscBy f l) := List.sorted_insertionSort _ _
  have hxs : x ∈ sortAscBy f l := (List.perm_insertionSort _ l).mem_iff.mpr hxl
  have hsplit : x ∈ (sortAscBy f l).take n ∨ x ∈ (sortAscBy f l).drop n := by
    rw [← List.mem_append, List.take_append_drop]
    exact hxs
  rcases hsplit with h | h
  · exact absurd h hxn
  · exact hs.rel_of_mem_take_of_mem_drop hy h

/-- C2: for keywords present in both compared snapshots the reported
position change is baseline position minus current position (positive =
rank improved); the biggest-movers lists are the (at most) 20 rows with
the largest positive / most negative change: every listed row has a
strictly positive (resp. negative) change, the list length is
min 20 (number of such rows), and no unlisted positive (resp.
negative) row beats a listed one. -/
theorem C2_position_change_and_movers (latest previous : List CanonRow)
    (hL : (latest.map CanonRow.keyword).Nodup)
    (hP : (previous.map CanonRow.keyword).Nodup) :
    (∀ rL ∈ latest, ∀ rP ∈ previous, rL.keyword = rP.keyword →
      ((∃ m, m ∈ mergedRows latest previous ∧ m.keyword = rL.keyword) ∧
       ∀ m ∈ mergedRows latest previous, m.keyword = rL.keyword →
         posChange m = some (rP.position - rL.position)))
  ∧ (∀ m ∈ improvementsOf latest previous, ∃ c, posChange m = some c ∧ 0 < c)
  ∧ (improvementsOf latest previous).length =
      min 20 (((mergedRows latest previous).filter isPosChange).length)
  ∧ (∀ m ∈ (mergedRows latest previous).filter isPosChange,
       m ∉ improvementsOf latest previous →
       ∀ m2 ∈ improvementsOf latest previous, chKey m ≤ chKey m2)
  ∧ (∀ m ∈ declinesOf latest previous, ∃ c, posChange m = some c ∧ c < 0)
  ∧ (declinesOf latest previous).length =
      min 20 (((mergedRows latest previous).filter isNegChange).length)
  ∧ (∀ m ∈ (mergedRows latest previous).filter isNegChange,
       m ∉ declinesOf latest previous →
       ∀ m2 ∈ declinesOf latest previous, chKey m2 ≤ chKey m) := by
  refine ⟨?_, ?_, ?_, ?_, ?_, ?_, ?_⟩
  · intro rL hrL rP hrP hkw
    constructor
    · refine ⟨⟨rL.keyword, latest.find? (fun r => r.keyword == rL.keyword),
          previous.find? (fun r => r.keyword == rL.keyword)⟩, ?_, rfl⟩
      exact List.mem_map_of_mem _ (List.mem_dedup.mpr (List.mem_append.mpr
        (Or.inl (List.mem_map_of_mem _ hrL))))
    · intro m hm hkey
      obtain ⟨k, hk, rfl⟩ := List.mem_map.mp hm
      have hkeq : k = rL.keyword := hkey
      subst hkeq
      have hfl : latest.find? (fun r => r.keyword == rL.keyword) = some rL :=
        find?_keyword_of_nodup latest hL rL hrL
      have hfp : previous.find? (fun r => r.keyword == rL.keyword) = some rP := by
        rw [hkw]
        exact find?_keyword_of_nodup previous hP rP hrP
      simp only [posChange, hfl, hfp, Option.map_some', Option.getD_some]
      rw [qsub_eq]
  · intro m hm
    have hmf : m ∈ (mergedRows latest previous).filter isPosChange :=
      take_sortDescBy_subset chKey _ 20 m hm
    exact (isPosChange_iff m).mp (List.mem_filter.mp hmf).2
  · rw [improvementsOf, List.length_take, sortDescBy, List.length_insertionSort]
  · intro m hmf hmn m2 hm2
    exact take_sortDescBy_maximal chKey _ 20 m m2 hmf hmn hm2
  · intro m hm
    have hmf : m ∈ (mergedRows latest previous).filter isNegChange :=
      take_sortAscBy_subset chKey _ 20 m hm
    exact (isNegChange_iff m).mp (List.mem_filter.mp hmf).2
  · rw [declinesOf, List.length_take, sortAscBy, List.length_insertionSort]
  · intro m hmf hmn m2 hm2
    exact take_sortAscBy_minimal chKey _ 20 m m2 hmf hmn hm2

theorem C2_witness :
    posChange ⟨shoesKw, some shoesCur, some shoesPrev⟩ = some 3 := by
  have h := ((C2_position_change_and_movers [shoesCur] [shoesPrev]
      (by decide) (by decide)).1 shoesCur (by decide) shoesPrev (by decide) rfl).2
      ⟨shoesKw, some shoesCur, some shoesPrev⟩ (by decide) rfl
  rw [h]
  norm_num [shoesPrev, shoesCur]

theorem not_mem_movers_of_not_pos (latest previous : List CanonRow) (m : MergedRow)
    (hnp : isPosChange m = false) : m ∉ improvementsOf latest previous := by
  intro hmem
  have hmf : m ∈ (mergedRows latest previous).filter isPosChange :=
    take_sortDescBy_subset chKey _ 20 m hmem
  rw [(List.mem_filter.mp hmf).2] at hnp
  exact Bool.noConfusion hnp

theorem not_mem_movers_of_not_neg (latest previous : List CanonRow) (m : MergedRow)
    (hnn : isNegChange m = false) : m ∉ declinesOf latest previous := by
  intro hmem
  have hmf : m ∈ (mergedRows latest previous).filter isNegChange :=
    take_sortAscBy_subset chKey _ 20 m hmem
  rw [(List.mem_filter.mp hmf).2] at hnn
  exact Bool.noConfusion hnn

/-- C10: a keyword present in only one of the two compared snapshots
never appears in the biggest-improvements or biggest-declines lists: a
keyword absent from the baseline gets change exactly 0 (its missing
baseline position filled with its current position), a keyword absent
from the current snapshot gets an undefined (NaN, modelled `none`)
change, and both are excluded from the strictly-positive and
strictly-negative mover sets; such keywords are reported via the
separate new-keywords and dropped-keywords subsets. -/
theorem C10_one_sided_keywords (latest previous : List CanonRow) :
    (∀ m ∈ mergedRows latest previous,
       ((∀ rP ∈ previous, rP.keyword ≠ m.keyword) → posChange m = some 0)
     ∧ ((∀ rL ∈ latest, rL.keyword ≠ m.keyword) → posChange m = none)
     ∧ (((∀ rP ∈ previous, rP.keyword ≠ m.keyword) ∨
         (∀ rL ∈ latest, rL.keyword ≠ m.keyword)) →
          m ∉ improvementsOf latest previous ∧ m ∉ declinesOf latest previous))
  ∧ (∀ rL ∈ latest, (∀ rP ∈ previous, rP.keyword ≠ rL.keyword) →
       rL ∈ newKeywordsOf latest previous)
  ∧ (∀ rP ∈ previous, (∀ rL ∈ latest, rL.keyword ≠ rP.keyword) →
       rP ∈ droppedKeywordsOf latest previous) := by
  have habsent : ∀ (l : List CanonRow) (k : Cell), (∀ r ∈ l, r.keyword ≠ k) →
      l.find? (fun r => r.keyword == k) = none := by
    intro l k h
    rw [List.find?_eq_none]
    intro x hx
    simpa using h x hx
  have hpresent : ∀ (l : List CanonRow) (k : Cell), (¬ ∀ r ∈ l, r.keyword ≠ k) →
      ∃ c, l.find? (fun r => r.keyword == k) = some c := by
    intro l k h
    push_neg at h
    obtain ⟨r, hr, hk⟩ := h
    have : (l.find? (fun r => r.keyword == k)).isSome :=
      List.find?_isSome.mpr ⟨r, hr, by simpa using hk⟩
    exact Option.isSome_iff_exists.mp this
  refine ⟨?_, ?_, ?_⟩
  · intro m hm
    obtain ⟨k, hk, rfl⟩ := List.mem_map.mp hm
    have hzero : (∀ rP ∈ previous, rP.keyword ≠ k) →
        posChange ⟨k, latest.find? (fun r => r.keyword == k),
                   previous.find? (fun r => r.keyword == k)⟩ = some 0 := by
      intro habs
      have hfp := habsent previous k habs
      have hkl : k ∈ latest.map CanonRow.keyword := by
        rcases List.mem_append.mp (List.mem_dedup.mp hk) with h | h
        · exact h
        · obtain ⟨rP, hrP, hkeq⟩ := List.mem_map.mp h
          exact absurd hkeq (habs rP hrP)
      obtain ⟨rL, hrL, hkeq⟩ := List.mem_map.mp hkl
      obtain ⟨c, hc⟩ := hpresent latest k (by
        intro hall
        exact hall rL hrL hkeq)
      simp only [posChange, hc, hfp, Option.map_none', Option.getD_none]
      rw [qsub_eq, sub_self]
    have hnone : (∀ rL ∈ latest, rL.keyword ≠ k) →
        posChange ⟨k, latest.find? (fun r => r.keyword == k),
                   previous.find? (fun r => r.keyword == k)⟩ = none := by
      intro habs
      have hfl := habsent latest k habs
      simp only [posChange, hfl]
    refine ⟨hzero, hnone, ?_⟩
    intro hone
    have hnp : isPosChange ⟨k, latest.find? (fun r => r.keyword == k),
        previous.find? (fun r => r.keyword == k)⟩ = false := by
      rcases hone with h1 | h1
      · rw [isPosChange, hzero h1]
        simp
      · rw [isPosChange, hnone h1]
    have hnn : isNegChange ⟨k, latest.find? (fun r => r.keyword == k),
        previous.find? (fun r => r.keyword == k)⟩ = false := by
      rcases hone with h1 | h1
      · rw [isNegChange, hzero h1]
        simp
      · rw [isNegChange, hnone h1]
    exact ⟨not_mem_movers_of_not_pos latest previous _ hnp,
           not_mem_movers_of_not_neg latest previous _ hnn⟩
  · intro rL hrL habs
    have hany : previous.any (fun p => p.keyword == rL.keyword) = false := by
      rw [List.any_eq_false]
      intro x hx
      simpa using habs x hx
    have hfil : rL ∈ latest.filter
        (fun r => !(previous.any (fun p => p.keyword == r.keyword))) := by
      rw [List.mem_filter]
      exact ⟨hrL, by rw [hany]; rfl⟩
    rw [newKeywordsOf]
    exact (List.perm_insertionSort _ _).mem_iff.mpr hfil
  · intro rP hrP habs
    have hany : latest.any (fun p => p.keyword == rP.keyword) = false := by
      rw [List.any_eq_false]
      intro x hx
      simpa using habs x hx
    have hfil : rP ∈ previous.filter
        (fun r => !(latest.any (fun p => p.keyword == r.keyword))) := by
      rw [List.mem_filter]
      exact ⟨hrP, by rw [hany]; rfl⟩
    rw [droppedKeywordsOf]
    exact (List.perm_insertionSort _ _).mem_iff.mpr hfil

theorem C10_witness : shoesCur ∈ newKeywordsOf [shoesCur] [] :=
  (C10_one_sided_keywords [shoesCur] []).2.1 shoesCur (by decide)
    (fun rP hrP => absurd hrP (by simp))

/-- C4 amended: with unspecified comparison dates the insights function
returns a not-applicable `none` (no error) exactly when the Date column
is absent, fewer than 2 files are loaded, or fewer than 2 non-null
dates exist counted WITH multiplicity; when it returns a comparison,
the current date is the maximum non-null date and the baseline is the
second-largest element of the date multiset — which equals the current
date when the maximum occurs twice, so two distinct dates are NOT
required. -/
theorem C4_default_period_selection (hasD : Bool) (combined : List DRow)
    (fds : List (ℕ × Option ℕ)) :
    (get_historical_insights hasD combined fds = none ↔
      (hasD = false ∨ fds.length < 2 ∨ (nonNullDates fds).length < 2))
  ∧ (∀ (ins : Insights) (d1 d2 : ℕ),
      get_historical_insights hasD combined fds = some (ins, d1, d2) →
      d1 ∈ nonNullDates fds ∧ (∀ d ∈ nonNullDates fds, d ≤ d1) ∧
      ∃ l, List.Perm (nonNullDates fds) (d1 :: l) ∧ d2 ∈ l ∧ ∀ d ∈ l, d ≤ d2) := by
  have hslen : (List.insertionSort (fun a b : ℕ => a ≤ b) (nonNullDates fds)).length =
      (nonNullDates fds).length :=
    (List.perm_insertionSort _ _).length_eq
  constructor
  · by_cases hcond : (hasD = false ∨ fds.length < 2)
    · rw [get_historical_insights, if_pos hcond]
      constructor
      · intro _
        rcases hcond with h | h
        · exact Or.inl h
        · exact Or.inr (Or.inl h)
      · intro _
        rfl
    · rw [get_historical_insights, if_neg hcond]
      push_neg at hcond
      cases hrev : (List.insertionSort (fun a b : ℕ => a ≤ b) (nonNullDates fds)).reverse with
      | nil =>
        have hlen : (nonNullDates fds).length = 0 := by
          have h1 := hslen
          rw [← List.length_reverse, hrev] at h1
          exact h1.symm
        constructor
        · intro _
          refine Or.inr (Or.inr ?_)
          rw [hlen]
          norm_num
        · intro _
          rfl
      | cons d1 tail =>
        cases tail with
        | nil =>
          have hlen : (nonNullDates fds).length = 1 := by
            have h1 := hslen
            rw [← List.length_reverse, hrev] at h1
            exact h1.symm
          constructor
          · intro _
            refine Or.inr (Or.inr ?_)
            rw [hlen]
            norm_num
          · intro _
            rfl
        | cons d2 t =>
          have hlen : 2 ≤ (nonNullDates fds).length := by
            have h1 := hslen
            rw [← List.length_reverse, hrev] at h1
            rw [← h1]
            simp only [List.length_cons]
            omega
          constructor
          · intro h
            exact absurd h (by simp)
          · intro h
            rcases h with h | h | h
            · exact absurd h hcond.1
            · exact absurd h (not_lt.mpr hcond.2)
            · exact absurd h (not_lt.mpr hlen)
  · intro ins d1 d2 hsome
    rw [get_historical_insights] at hsome
    by_cases hcond : (hasD = false ∨ fds.length < 2)
    · rw [if_pos hcond] at hsome
      exact absurd hsome (by simp)
    · rw [if_neg hcond] at hsome
      haveI hTot : IsTotal ℕ (fun a b : ℕ => a ≤ b) := ⟨fun a b => le_total a b⟩
      haveI hTrans : IsTrans ℕ (fun a b : ℕ => a ≤ b) := ⟨fun _ _ _ h1 h2 => le_trans h1 h2⟩
      have hsort : List.Sorted (fun a b : ℕ => a ≤ b)
          (List.insertionSort (fun a b : ℕ => a ≤ b) (nonNullDates fds)) :=
        List.sorted_insertionSort _ _
      cases hrev : (List.insertionSort (fun a b : ℕ => a ≤ b) (nonNullDates fds)).reverse with
      | nil =>
        rw [hrev] at hsome
        exact absurd hsome (by simp)
      | cons d1' tail =>
        cases tail with
        | nil =>
          rw [hrev] at hsome
          exact absurd hsome (by simp)
        | cons d2' t =>
          rw [hrev] at hsome
          simp only [Option.some.injEq, Prod.mk.injEq] at hsome
          obtain ⟨-, hd1, hd2⟩ := hsome
          subst hd1
          subst hd2
          have hpw : (List.insertionSort (fun a b : ℕ => a ≤ b)
              (nonNullDates fds)).reverse.Pairwise (fun a b : ℕ => b ≤ a) :=
            List.pairwise_reverse.mpr hsort
          rw [hrev] at hpw
          have hperm2 : List.Perm (nonNullDates fds) (d1' :: d2' :: t) := by
            have h1 := (List.perm_insertionSort (fun a b : ℕ => a ≤ b) (nonNullDates fds)).symm
            have h2 := (List.reverse_perm (List.insertionSort (fun a b : ℕ => a ≤ b)
              (nonNullDates fds))).symm
            have h3 := h1.trans h2
            rwa [hrev] at h3
          have hhead := List.pairwise_cons.mp hpw
          refine ⟨hperm2.mem_iff.mpr (List.mem_cons_self _ _), ?_,
            d2' :: t, hperm2, List.mem_cons_self _ _, ?_⟩
          · intro d hd
            rcases List.mem_cons.mp (hperm2.mem_iff.mp hd) with rfl | hd2
            · exact le_refl _
            · exact hhead.1 d hd2
          · intro d hd
            rcases List.mem_cons.mp hd with rfl | hdt
            · exact le_refl _
            · exact (List.pairwise_cons.mp hhead.2).1 d hdt

/-- C4 counterexample: two loaded files carry the same date 3 — only
ONE distinct non-null date — yet the default comparison is produced
(comparing date 3 against itself) instead of the claimed
not-applicable result. -/
theorem C4_cex_duplicate_dates :
    (nonNullDates [((0:ℕ), some (3:ℕ)), ((1:ℕ), some (3:ℕ))]).dedup.length = 1 ∧
    get_historical_insights true [] [((0:ℕ), some (3:ℕ)), ((1:ℕ), some (3:ℕ))] =
      some (computeInsights (rowsAt [] 3) (rowsAt [] 3), 3, 3) := by
  refine ⟨by decide, by decide⟩

theorem C4_witness :
    (5:ℕ) ∈ nonNullDates [((0:ℕ), some (5:ℕ)), ((1:ℕ), some (3:ℕ))] :=
  ((C4_default_period_selection true [] [((0:ℕ), some (5:ℕ)), ((1:ℕ), some (3:ℕ))]).2
    (computeInsights (rowsAt [] 5) (rowsAt [] 3)) 5 3 (by decide)).1

/-- C8: the filename date parser applies its strategies in order with
first match winning — (1) the leftmost `YYYY-MM-DD`-shaped match,
parsed strictly (a malformed leftmost match, e.g. month 13, drops
through to the next strategy), then (2) the leftmost run of 8
consecutive digits with the same strict-parse-or-skip rule, then (3)
the modification-date oracle, which is the file's mtime date when the
file is accessible on disk and null otherwise; the scans really return
the leftmost occurrence; and the spec's scenarios hold:
"report-2025-11-14.xlsx" → 2025-11-14, "report_20251231.xlsx" →
2025-12-31, "report.xlsx" without disk access → null, and a malformed
first match "2025-13-14" falls through to the 8-digit strategy. -/
theorem C8_filename_date_strategies :
    (∀ (name : Str) (mt : Option SDate) (d : SDate),
        dashStrategy name = some d → extract_date_from_filename name mt = some d)
  ∧ (∀ (name : Str) (mt : Option SDate) (d : SDate),
        dashStrategy name = none → eightStrategy name = some d →
        extract_date_from_filename name mt = some d)
  ∧ (∀ (name : Str) (mt : Option SDate),
        dashStrategy name = none → eightStrategy name = none →
        extract_date_from_filename name mt = mt)
  ∧ (∀ (name t : Str), scanDash name = some t →
        ∃ i, t = (name.drop i).take 10 ∧ dashShape (name.drop i) = true ∧
          ∀ j < i, dashShape (name.drop j) = false)
  ∧ (∀ (name t : Str), scan8 name = some t →
        ∃ i, t = (name.drop i).take 8 ∧ eightShape (name.drop i) = true ∧
          ∀ j < i, eightShape (name.drop j) = false)
  ∧ extract_date_from_filename (cs "report-2025-11-14.xlsx") none =
      some (SDate.mk 2025 11 14)
  ∧ extract_date_from_filename (cs "report_20251231.xlsx") none =
      some (SDate.mk 2025 12 31)
  ∧ extract_date_from_filename (cs "report.xlsx") none = none
  ∧ extract_date_from_filename (cs "report-2025-13-14_20251231.xlsx") none =
      some (SDate.mk 2025 12 31) := by
  refine ⟨?_, ?_, ?_, ?_, ?_, by decide, by decide, by decide, by decide⟩
  · intro name mt d h
    unfold extract_date_from_filename
    rw [h]
  · intro name mt d h1 h2
    unfold extract_date_from_filename
    rw [h1, h2]
  · intro name mt h1 h2
    unfold extract_date_from_filename
    rw [h1, h2]
  · intro name
    induction name with
    | nil =>
      intro t ht
      simp [scanDash] at ht
    | cons c rest ih =>
      intro t ht
      simp only [scanDash] at ht
      by_cases hd : dashShape (c :: rest) = true
      · rw [if_pos hd] at ht
        refine ⟨0, ?_, ?_, ?_⟩
        · rw [List.drop_zero]
          exact (Option.some.inj ht).symm
        · rw [List.drop_zero]
          exact hd
        · intro j hj
          exact absurd hj (Nat.not_lt_zero j)
      · rw [if_neg hd] at ht
        obtain ⟨i, h1, h2, h3⟩ := ih t ht
        refine ⟨i + 1, ?_, ?_, ?_⟩
        · rw [List.drop_succ_cons]
          exact h1
        · rw [List.drop_succ_cons]
          exact h2
        · intro j hj
          cases j with
          | zero =>
            rw [List.drop_zero]
            simpa using hd
          | succ j2 =>
            rw [List.drop_succ_cons]
            exact h3 j2 (Nat.lt_of_succ_lt_succ hj)
  · intro name
    induction name with
    | nil =>
      intro t ht
      simp [scan8] at ht
    | cons c rest ih =>
      intro t ht
      simp only [scan8] at ht
      by_cases hd : eightShape (c :: rest) = true
      · rw [if_pos hd] at ht
        refine ⟨0, ?_, ?_, ?_⟩
        · rw [List.drop_zero]
          exact (Option.some.inj ht).symm
        · rw [List.drop_zero]
          exact hd
        · intro j hj
          exact absurd hj (Nat.not_lt_zero j)
      · rw [if_neg hd] at ht
        obtain ⟨i, h1, h2, h3⟩ := ih t ht
        refine ⟨i + 1, ?_, ?_, ?_⟩
        · rw [List.drop_succ_cons]
          exact h1
        · rw [List.drop_succ_cons]
          exact h2
        · intro j hj
          cases j with
          | zero =>
            rw [List.drop_zero]
            simpa using hd
          | succ j2 =>
            rw [List.drop_succ_cons]
            exact h3 j2 (Nat.lt_of_succ_lt_succ hj)

theorem C8_witness :
    extract_date_from_filename (cs "report.xlsx") (some (SDate.mk 2000 1 2)) =
      some (SDate.mk 2000 1 2) :=
  C8_filename_date_strategies.2.2.1 (cs "report.xlsx") (some (SDate.mk 2000 1 2))
    (by decide) (by decide)
